import Mathlib

/-!
Shallow embedding of the two bit-banging drivers of the STM32 quiz firmware:

* `src/i2c.c`  — HD44780 character LCD driven through a PCF8574 I2C expander.
  Every physical effect of the driver is the sequence of bytes it writes to the
  expander via `pcf_write` (one byte per I2C transaction).  We model each
  operation as the list of expander bytes it emits, together with the module's
  single piece of mutable state, the `backlight` flag.

* `src/ws2812b.c` — WS2812B single-wire bit-banger.  Every physical effect is
  the sequence of timed pulses on the output pin.  We model each loop
  iteration as one `bitPulse high low` event (pin set, busy-wait `high` ns,
  pin reset, busy-wait `low` ns) and the trailing pin-low + 1 ms delay as one
  `resetHold` event.  The C loop counter `i` is a `uint16_t` compared against
  the `int`-valued `led_count * 3`, so the loop is modelled with the stored
  (mod 2^16) index and a fuel argument: the loop terminates iff some fuel
  suffices.
-/

/-! ### Constants from `src/i2c.h` and `src/i2c.c` -/

/-- `P_CF_RS = (1<<0)`: register-select bit of the expander byte. -/
def P_CF_RS : Nat := 1

/-- `P_CF_RW = (1<<1)`: read/write bit of the expander byte (always write). -/
def P_CF_RW : Nat := 2

/-- `P_CF_EN = (1<<2)`: enable (strobe) bit of the expander byte. -/
def P_CF_EN : Nat := 4

/-- `P_CF_BL = (1<<3)`: backlight bit of the expander byte. -/
def P_CF_BL : Nat := 8

/-- `LCD_COLS` as defined in `i2c.h`. -/
def LCD_COLS : Nat := 16

/-- `LCD_ROWS` as defined in `i2c.h`. -/
def LCD_ROWS : Nat := 2

/-- `PCF_NIBBLE_SHIFT`: compile-time nibble position, default 4. -/
def PCF_NIBBLE_SHIFT : Nat := 4

/-! ### LCD driver: expander-byte traces (`src/i2c.c`) -/

/-- `lcd_pulse_enable(data)`: `pcf_write(data | P_CF_EN)` then
`pcf_write(data & ~P_CF_EN)` (with `~P_CF_EN` truncated to the `uint8_t`
operand, i.e. `&&& 0xFB`).  The two `HAL_Delay(1)` calls have no bus effect. -/
def lcd_pulse_enable (data : Nat) : List Nat :=
  [data ||| P_CF_EN, data &&& 0xFB]

/-- `lcd_write_nibble(nibble, ctrl)` with the module backlight flag `bl`:
builds `out = (((nibble & 0x0F) << PCF_NIBBLE_SHIFT) & 0xFF) | (ctrl & (P_CF_RS|P_CF_RW)) | backlight`,
writes it, then pulses enable. -/
def lcd_write_nibble (bl nibble ctrl : Nat) : List Nat :=
  let out := (((nibble &&& 0x0F) <<< PCF_NIBBLE_SHIFT) &&& 0xFF)
               ||| (ctrl &&& (P_CF_RS ||| P_CF_RW)) ||| bl
  out :: lcd_pulse_enable out

/-- `lcd_send_cmd(cmd)`: high nibble then low nibble, `ctrl = 0`. -/
def lcd_send_cmd (bl cmd : Nat) : List Nat :=
  lcd_write_nibble bl ((cmd >>> 4) &&& 0x0F) 0 ++
  lcd_write_nibble bl ((cmd >>> 0) &&& 0x0F) 0

/-- `lcd_send_data(data)`: high nibble then low nibble, `ctrl = P_CF_RS`. -/
def lcd_send_data (bl data : Nat) : List Nat :=
  lcd_write_nibble bl ((data >>> 4) &&& 0x0F) P_CF_RS ++
  lcd_write_nibble bl ((data >>> 0) &&& 0x0F) P_CF_RS

/-- `lcd_put_cur(row, col)`, parametric in the compile-time geometry
(`LCD_ROWS`/`LCD_COLS`): clamps `row`/`col` to the last valid index, picks the
DDRAM base from the 16x2 or 20x4 table (linear fallback otherwise), and sends
the single command `0x80 | addr`. -/
def lcd_put_cur_geom (rows cols bl row col : Nat) : List Nat :=
  let row := if rows ≤ row then rows - 1 else row
  let col := if cols ≤ col then cols - 1 else col
  let addr :=
    if rows = 2 ∧ cols = 16 then
      (if row = 0 then 0x00 else 0x40) + col
    else if rows = 4 ∧ cols = 20 then
      (if row = 0 then 0x00 + col
       else if row = 1 then 0x40 + col
       else if row = 2 then 0x14 + col
       else if row = 3 then 0x54 + col
       else 0x00 + col)
    else
      (if row = 0 then 0x00 else 0x40) + col
  lcd_send_cmd bl (0x80 ||| addr)

/-- `lcd_put_cur` at the geometry declared in `i2c.h` (16x2). -/
def lcd_put_cur (bl row col : Nat) : List Nat :=
  lcd_put_cur_geom LCD_ROWS LCD_COLS bl row col

/-- `lcd_send_string(str)`: `while (*str) lcd_send_data(*str++)`.  The C
string is modelled as a byte list; a `0` byte acts as the terminator. -/
def lcd_send_string (bl : Nat) : List Nat → List Nat
  | [] => []
  | c :: rest => if c = 0 then [] else lcd_send_data bl c ++ lcd_send_string bl rest

/-- `lcd_backlight_on()`: sets the flag to `P_CF_BL` and writes that byte.
Returns (new flag, emitted bytes). -/
def lcd_backlight_on (_bl : Nat) : Nat × List Nat :=
  (P_CF_BL, [P_CF_BL])

/-- `lcd_backlight_off()`: clears the flag and writes the zero byte. -/
def lcd_backlight_off (_bl : Nat) : Nat × List Nat :=
  (0, [0])

/-- `lcd_init(hi2c, addr)`: sets `backlight = P_CF_BL`, sends the 4-bit-mode
handshake nibbles (0x03 three times then 0x02), then function-set
(`0x20 | 0x08` since `LCD_ROWS > 1`), display-on `0x0C`, clear `0x01`, and
entry mode `0x06`.  Returns (new flag, emitted bytes). -/
def lcd_init : Nat × List Nat :=
  (P_CF_BL,
    lcd_write_nibble P_CF_BL 0x03 0 ++
    lcd_write_nibble P_CF_BL 0x03 0 ++
    lcd_write_nibble P_CF_BL 0x03 0 ++
    lcd_write_nibble P_CF_BL 0x02 0 ++
    lcd_send_cmd P_CF_BL 0x28 ++
    lcd_send_cmd P_CF_BL 0x0C ++
    lcd_send_cmd P_CF_BL 0x01 ++
    lcd_send_cmd P_CF_BL 0x06)

/-- `lcd_clear()`: sends command `0x01`. -/
def lcd_clear (bl : Nat) : List Nat :=
  lcd_send_cmd bl 0x01

/-- One row of `lcd_ascii_test()`: positions at `(r, 0)` and sends the 16
characters `32 + r*16 + i`. -/
def lcd_ascii_test_row (bl r : Nat) : List Nat :=
  lcd_put_cur bl r 0 ++
  lcd_send_string bl ((List.range LCD_COLS).map (fun i => 32 + r * LCD_COLS + i))

/-- `lcd_ascii_test()`: the two rows of the 16x2 geometry (`len = LCD_COLS`
is below the 31-character buffer cap, so the cap in the C code is inactive). -/
def lcd_ascii_test (bl : Nat) : List Nat :=
  (List.range LCD_ROWS).map (lcd_ascii_test_row bl) |>.flatten

/-- The inner copy loop of `lcd_show_wrapped`:
`for (i = 0; i < LCD_COLS && s[offset+i] != '\0'; ++i) tmp[i] = s[offset+i]`.
`fuel` counts the remaining iterations allowed by `i < LCD_COLS`; the byte at
index `k` of the NUL-terminated C string with content `s` is `s.getD k 0`. -/
def lcd_copy_chunk (s : List Nat) (offset : Nat) : Nat → List Nat
  | 0 => []
  | fuel + 1 =>
    if s.getD offset 0 = 0 then []
    else s.getD offset 0 :: lcd_copy_chunk s (offset + 1) fuel

/-- The row loop of `lcd_show_wrapped`, from row `r` with `remaining` rows
left (`LCD_ROWS - r`).  Each iteration copies one chunk, emits
`(r, chunk)` — standing for `lcd_put_cur(r, 0); lcd_send_string(tmp)` — and
breaks when the byte after the copied chunk is the terminator. -/
def lcd_show_wrapped_go (s : List Nat) (r : Nat) : Nat → List (Nat × List Nat)
  | 0 => []
  | remaining + 1 =>
    let chunk := lcd_copy_chunk s (r * LCD_COLS) LCD_COLS
    (r, chunk) ::
      (if s.getD (r * LCD_COLS + chunk.length) 0 = 0 then []
       else lcd_show_wrapped_go s (r + 1) remaining)

/-- `lcd_show_wrapped(s)` as its row-level trace: the list of
(row, chunk written to that row) pairs, in order. -/
def lcd_show_wrapped_rows (s : List Nat) : List (Nat × List Nat) :=
  lcd_show_wrapped_go s 0 LCD_ROWS

/-- `lcd_show_wrapped(s)` as its expander-byte trace: each row iteration
performs `lcd_put_cur(r, 0)` then `lcd_send_string(chunk)`. -/
def lcd_show_wrapped_bytes (bl : Nat) (s : List Nat) : List Nat :=
  (lcd_show_wrapped_rows s).map (fun rc => lcd_put_cur bl rc.1 0 ++ lcd_send_string bl rc.2)
    |>.flatten

/-- `lcd_scroll_line(row, text, delay_ms)` as its expander-byte trace: if the
text fits in one row, a single position-and-write; otherwise one
position-and-write per window start `0 .. len - LCD_COLS`. -/
def lcd_scroll_line (bl row : Nat) (text : List Nat) : List Nat :=
  if text.length ≤ LCD_COLS then
    lcd_put_cur bl row 0 ++ lcd_send_string bl text
  else
    (List.range (text.length - LCD_COLS + 1)).map
      (fun start => lcd_put_cur bl row 0 ++ lcd_send_string bl ((text.drop start).take LCD_COLS))
      |>.flatten

/-- The public operations of the LCD driver (`i2c.h` plus the non-static
utility helpers in `i2c.c`). -/
inductive LcdOp where
  | opInit : LcdOp
  | opClear : LcdOp
  | opPutCur (row col : Nat) : LcdOp
  | opSendString (s : List Nat) : LcdOp
  | opBacklightOn : LcdOp
  | opBacklightOff : LcdOp
  | opAsciiTest : LcdOp
  | opShowWrapped (s : List Nat) : LcdOp
  | opScrollLine (row : Nat) (text : List Nat) : LcdOp
deriving DecidableEq

/-- One step of the LCD module: given the stored `backlight` flag, an
operation yields the new flag and the expander bytes it emits. -/
def lcdStep (op : LcdOp) (bl : Nat) : Nat × List Nat :=
  match op with
  | .opInit => lcd_init
  | .opClear => (bl, lcd_clear bl)
  | .opPutCur r c => (bl, lcd_put_cur bl r c)
  | .opSendString s => (bl, lcd_send_string bl s)
  | .opBacklightOn => lcd_backlight_on bl
  | .opBacklightOff => lcd_backlight_off bl
  | .opAsciiTest => (bl, lcd_ascii_test bl)
  | .opShowWrapped s => (bl, lcd_show_wrapped_bytes bl s)
  | .opScrollLine r t => (bl, lcd_scroll_line bl r t)

/-! ### WS2812B bit-banger (`src/ws2812b.c`) -/

/-- `T0H`: nanoseconds the line is held high for a 0 bit. -/
def T0H : Nat := 350

/-- `T1H`: nanoseconds the line is held high for a 1 bit. -/
def T1H : Nat := 700

/-- `T0L`: nanoseconds the line is held low after a 0 bit. -/
def T0L : Nat := 800

/-- `T1L`: nanoseconds the line is held low after a 1 bit. -/
def T1L : Nat := 600

/-- Observable events on the WS2812B data pin. -/
inductive WSEvent where
  /-- pin set, busy-wait `highNs`, pin reset, busy-wait `lowNs`. -/
  | bitPulse (highNs lowNs : Nat) : WSEvent
  /-- pin reset then `HAL_Delay(1)`: the trailing >50 us reset hold. -/
  | resetHold : WSEvent
deriving DecidableEq

/-- The inner bit loop `for (int8_t bit = 7; bit >= 0; bit--)` applied to
`cur_byte = b`, with `k` bits still to send (first iteration tests
`b & (1 << (k-1))`). -/
def wsBitLoop (b : Nat) : Nat → List WSEvent
  | 0 => []
  | k + 1 =>
    (if b &&& (1 <<< k) ≠ 0 then WSEvent.bitPulse T1H T1L
     else WSEvent.bitPulse T0H T0L) :: wsBitLoop b k

/-- The outer loop `for (uint16_t i = 0; i < led_count * 3; i++)`.  `i` is the
stored value of the `uint16_t` counter (so it advances by `(i+1) % 65536`),
while the bound `led_count * 3` is computed in `int` and does not wrap.
`fuel` bounds the number of iterations examined: `none` means the loop did
not exit within `fuel` iterations, so the loop diverges iff the result is
`none` for every fuel. -/
def wsSendLoop (buf : List Nat) (n : Nat) : Nat → Nat → Option (List WSEvent)
  | 0, _ => none
  | fuel + 1, i =>
    if i < n * 3 then
      (wsSendLoop buf n fuel ((i + 1) % 65536)).map
        (fun evs => wsBitLoop (buf.getD i 0) 8 ++ evs)
    else some []

/-- `ws2812b_send(led_buffer, led_count)` with initial PRIMASK bit
`primaskEntry` (`true` = interrupts masked at entry).  The function saves
PRIMASK, disables IRQs, runs the bit loop, drives the pin low and holds the
reset interval, then re-enables IRQs exactly when `!irq_state`.  Result: the
event trace and the PRIMASK bit on return (`none` if the loop diverges
within the given fuel). -/
def ws2812b_send (primaskEntry : Bool) (buf : List Nat) (n fuel : Nat) :
    Option (List WSEvent × Bool) :=
  (wsSendLoop buf n fuel 0).map
    (fun evs => (evs ++ [WSEvent.resetHold],
                 if primaskEntry = false then false else true))

/-- The transmission loop of `ws2812b_send` terminates on this input. -/
def wsSendTerminates (buf : List Nat) (n : Nat) : Prop :=
  ∃ fuel evs, wsSendLoop buf n fuel 0 = some evs

/-! ### Helper lemmas -/

/-- Backlight bit of the three bytes of a nibble transfer, over the bounded
nibble and control fields, for both possible flag values. -/
lemma nibble_frame_bl_bit :
    ∀ m < 16, ∀ c < 4,
      ((((m <<< 4) &&& 255) ||| c ||| 0) &&& 8 = 0) ∧
      (((((m <<< 4) &&& 255) ||| c ||| 0) ||| 4) &&& 8 = 0) ∧
      (((((m <<< 4) &&& 255) ||| c ||| 0) &&& 251) &&& 8 = 0) ∧
      ((((m <<< 4) &&& 255) ||| c ||| 8) &&& 8 = 8) ∧
      (((((m <<< 4) &&& 255) ||| c ||| 8) ||| 4) &&& 8 = 8) ∧
      (((((m <<< 4) &&& 255) ||| c ||| 8) &&& 251) &&& 8 = 8) := by decide

/-- Every byte emitted by `lcd_write_nibble` has its backlight bit equal to
the stored flag, for the two values the flag can take. -/
lemma mem_lcd_write_nibble_bl (bl nibble ctrl : Nat) (hbl : bl = 0 ∨ bl = P_CF_BL) :
    ∀ b ∈ lcd_write_nibble bl nibble ctrl, b &&& P_CF_BL = bl := by
  have e3 : P_CF_RS ||| P_CF_RW = 3 := rfl
  have h4 : ctrl &&& (P_CF_RS ||| P_CF_RW) < 4 := by
    rw [e3]; exact Nat.lt_succ_of_le Nat.and_le_right
  have h16 : nibble &&& 0x0F < 16 := Nat.lt_succ_of_le Nat.and_le_right
  have key := nibble_frame_bl_bit _ h16 _ h4
  intro b hb
  simp only [lcd_write_nibble, lcd_pulse_enable, List.mem_cons, List.not_mem_nil,
    or_false] at hb
  rcases hbl with rfl | rfl <;> rcases hb with rfl | rfl | rfl
  · exact key.1
  · exact key.2.1
  · exact key.2.2.1
  · exact key.2.2.2.1
  · exact key.2.2.2.2.1
  · exact key.2.2.2.2.2

/-- Every byte emitted by `lcd_send_cmd` has backlight bit equal to the flag. -/
lemma mem_lcd_send_cmd_bl (bl cmd : Nat) (hbl : bl = 0 ∨ bl = P_CF_BL) :
    ∀ b ∈ lcd_send_cmd bl cmd, b &&& P_CF_BL = bl := by
  intro b hb
  rcases List.mem_append.1 hb with h | h
  · exact mem_lcd_write_nibble_bl bl _ _ hbl b h
  · exact mem_lcd_write_nibble_bl bl _ _ hbl b h

/-- Every byte emitted by `lcd_send_data` has backlight bit equal to the flag. -/
lemma mem_lcd_send_data_bl (bl d : Nat) (hbl : bl = 0 ∨ bl = P_CF_BL) :
    ∀ b ∈ lcd_send_data bl d, b &&& P_CF_BL = bl := by
  intro b hb
  rcases List.mem_append.1 hb with h | h
  · exact mem_lcd_write_nibble_bl bl _ _ hbl b h
  · exact mem_lcd_write_nibble_bl bl _ _ hbl b h

/-- Every byte emitted by `lcd_send_string` has backlight bit equal to the flag. -/
lemma mem_lcd_send_string_bl (bl : Nat) (hbl : bl = 0 ∨ bl = P_CF_BL) :
    ∀ s : List Nat, ∀ b ∈ lcd_send_string bl s, b &&& P_CF_BL = bl := by
  intro s
  induction s with
  | nil => intro b hb; simp [lcd_send_string] at hb
  | cons c rest ih =>
    intro b hb
    by_cases hc : c = 0
    · simp [lcd_send_string, hc] at hb
    · rw [lcd_send_string, if_neg hc] at hb
      rcases List.mem_append.1 hb with h | h
      · exact mem_lcd_send_data_bl bl c hbl b h
      · exact ih b h

/-- Every byte emitted by `lcd_put_cur_geom` has backlight bit equal to the flag. -/
lemma mem_lcd_put_cur_geom_bl (rows cols bl row col : Nat) (hbl : bl = 0 ∨ bl = P_CF_BL) :
    ∀ b ∈ lcd_put_cur_geom rows cols bl row col, b &&& P_CF_BL = bl := by
  intro b hb
  simp only [lcd_put_cur_geom] at hb
  exact mem_lcd_send_cmd_bl bl _ hbl b hb

/-! ### C4: bit-period constants -/

/-- C4 counterexample: the claim asserts `T0H + T0L = T1H + T1L` as exact
integer nanosecond sums; the driver's constants give 1150 vs 1300 ns. -/
theorem c4_counterexample : ¬ (T0H + T0L = T1H + T1L) := by decide

/-- C4 (amended): the total bit period is NOT constant: a 0 bit occupies
`T0H + T0L = 1150` ns and a 1 bit `T1H + T1L = 1300` ns, a 150 ns difference. -/
theorem c4_bit_periods :
    T0H + T0L = 1150 ∧ T1H + T1L = 1300 ∧ T1H + T1L = (T0H + T0L) + 150 := by decide

/-! ### C6: backlight idempotence -/

/-- C6 counterexample: after a preceding `lcd_send_data(0x41)` with the
backlight on, the expander state left on the bus is `0x19`; the byte written
by `lcd_backlight_on()` is `0x08`, which differs from `0x19` outside the
backlight bit (mask `0xF7`), i.e. the call does alter other expander bits. -/
theorem c6_counterexample :
    ¬ (∀ b ∈ (lcd_backlight_on P_CF_BL).2,
          b &&& 0xF7 = ((lcd_send_data P_CF_BL 0x41).getLastD 0) &&& 0xF7) := by decide

/-- C6 (amended): calling `backlight_on()` twice in a row produces the same
expander output byte on both calls; that byte is exactly `P_CF_BL` (the
backlight flag alone, every other expander bit written as zero), so the call
does not preserve the other bits of the previously emitted expander byte. -/
theorem c6_backlight_idempotent (bl : Nat) :
    (lcd_backlight_on bl).2 = (lcd_backlight_on (lcd_backlight_on bl).1).2 ∧
    (lcd_backlight_on bl).2 = [P_CF_BL] ∧
    (lcd_backlight_on bl).1 = P_CF_BL :=
  ⟨rfl, rfl, rfl⟩

/-! ### C5: cursor clamping -/

/-- C5: for every row/column input (in range or not), `lcd_put_cur` emits the
single command for the clamped coordinates: an out-of-range row is replaced
by `LCD_ROWS - 1` and an out-of-range column by `LCD_COLS - 1` before the
DDRAM address is computed; the call never wraps and never errors. -/
theorem c5_put_cur_clamps (bl row col : Nat) :
    lcd_put_cur bl row col =
      lcd_send_cmd bl (0x80 |||
        ((if min row (LCD_ROWS - 1) = 0 then 0x00 else 0x40) + min col (LCD_COLS - 1))) := by
  have hr : (if LCD_ROWS ≤ row then LCD_ROWS - 1 else row) = min row (LCD_ROWS - 1) := by
    simp only [LCD_ROWS]; split <;> omega
  have hc : (if LCD_COLS ≤ col then LCD_COLS - 1 else col) = min col (LCD_COLS - 1) := by
    simp only [LCD_COLS]; split <;> omega
  simp only [lcd_put_cur, lcd_put_cur_geom, LCD_ROWS, LCD_COLS] at hr hc ⊢
  rw [hr, hc]
  norm_num

/-! ### C2: cursor addressing within the declared geometry -/

/-- C2: for every (row, col) inside a declared 16x2 or 20x4 geometry,
`lcd_put_cur` issues exactly one command byte: `0x80` OR'd with the
geometry-specific row base (16x2: 0x00/0x40; 20x4: 0x00/0x40/0x14/0x54) plus
the column offset. -/
theorem c2_put_cur_addr (bl rows cols row col : Nat)
    (hgeom : (rows = 2 ∧ cols = 16) ∨ (rows = 4 ∧ cols = 20))
    (hrow : row < rows) (hcol : col < cols) :
    lcd_put_cur_geom rows cols bl row col =
      lcd_send_cmd bl (0x80 |||
        ((if rows = 2 then (if row = 0 then 0x00 else 0x40)
          else if row = 0 then 0x00
          else if row = 1 then 0x40
          else if row = 2 then 0x14
          else 0x54) + col)) := by
  rcases hgeom with ⟨h1, h2⟩ | ⟨h1, h2⟩ <;> subst h1 <;> subst h2 <;>
    have hcc : ¬ (_ ≤ col) := Nat.not_le.mpr hcol <;>
    interval_cases row <;>
    simp [lcd_put_cur_geom, hcc]

/-- Witness for C2 at a concrete in-range input of the 20x4 geometry. -/
theorem c2_put_cur_addr_witness :
    ((4 = 2 ∧ 20 = 16) ∨ (4 = 4 ∧ 20 = 20)) ∧ 2 < 4 ∧ 5 < 20 ∧
    lcd_put_cur_geom 4 20 8 2 5 =
      lcd_send_cmd 8 (0x80 |||
        ((if 4 = 2 then (if 2 = 0 then 0x00 else 0x40)
          else if 2 = 0 then 0x00
          else if 2 = 1 then 0x40
          else if 2 = 2 then 0x14
          else 0x54) + 5)) :=
  ⟨Or.inr ⟨rfl, rfl⟩, by omega, by omega,
   c2_put_cur_addr 8 4 20 2 5 (Or.inr ⟨rfl, rfl⟩) (by omega) (by omega)⟩

/-! ### C1: nibble transfer protocol -/

/-- The protocol shape claimed for a full 8-bit transfer with byte `b` and
backlight flag `bl`: the emitted expander bytes are exactly two nibble
transfers — frame, frame with EN set, frame with EN cleared — the first
frame carrying the high nibble of `b` in the data bits and the second the low
nibble; every frame has EN clear (so each transfer contains exactly one
set-then-clear enable pulse); and the RS bit of every emitted byte is clear
for `lcd_send_cmd` and set for `lcd_send_data`. -/
def NibbleProtocolSpec (b bl : Nat) : Prop :=
  lcd_send_cmd bl b =
    [((b >>> 4) <<< 4) ||| bl,
     (((b >>> 4) <<< 4) ||| bl) ||| P_CF_EN,
     ((b >>> 4) <<< 4) ||| bl,
     ((b &&& 0x0F) <<< 4) ||| bl,
     (((b &&& 0x0F) <<< 4) ||| bl) ||| P_CF_EN,
     ((b &&& 0x0F) <<< 4) ||| bl] ∧
  lcd_send_data bl b =
    [(((b >>> 4) <<< 4) ||| bl) ||| P_CF_RS,
     ((((b >>> 4) <<< 4) ||| bl) ||| P_CF_RS) ||| P_CF_EN,
     (((b >>> 4) <<< 4) ||| bl) ||| P_CF_RS,
     (((b &&& 0x0F) <<< 4) ||| bl) ||| P_CF_RS,
     ((((b &&& 0x0F) <<< 4) ||| bl) ||| P_CF_RS) ||| P_CF_EN,
     (((b &&& 0x0F) <<< 4) ||| bl) ||| P_CF_RS] ∧
  (∀ x ∈ lcd_send_cmd bl b, x &&& P_CF_RS = 0) ∧
  (∀ x ∈ lcd_send_data bl b, x &&& P_CF_RS = P_CF_RS) ∧
  ((((b >>> 4) <<< 4) ||| bl) &&& P_CF_EN = 0) ∧
  ((((b &&& 0x0F) <<< 4) ||| bl) &&& P_CF_EN = 0) ∧
  (((((b >>> 4) <<< 4) ||| bl) ||| P_CF_RS) &&& P_CF_EN = 0) ∧
  (((((b &&& 0x0F) <<< 4) ||| bl) ||| P_CF_RS) &&& P_CF_EN = 0) ∧
  (((((b >>> 4) <<< 4) ||| bl) >>> 4) &&& 0x0F = (b >>> 4) &&& 0x0F) ∧
  (((((b &&& 0x0F) <<< 4) ||| bl) >>> 4) &&& 0x0F = b &&& 0x0F)

instance (b bl : Nat) : Decidable (NibbleProtocolSpec b bl) := by
  unfold NibbleProtocolSpec; exact inferInstance

set_option maxRecDepth 4000 in
/-- C1: for every 8-bit byte and either backlight flag value, the driver
emits exactly two nibble transfers (high nibble first, then low), each
containing exactly one enable pulse (EN written set then cleared), with the
RS bit deasserted in every byte of a command transfer and asserted in every
byte of a data transfer. -/
theorem c1_nibble_protocol (b bl : Nat) (hb : b < 256) (hbl : bl = 0 ∨ bl = P_CF_BL) :
    NibbleProtocolSpec b bl := by
  rcases hbl with rfl | rfl <;> revert hb <;> revert b <;> decide

/-- Witness for C1 at the concrete byte 0x41 with the backlight on. -/
theorem c1_nibble_protocol_witness :
    (0x41 : Nat) < 256 ∧ ((8 : Nat) = 0 ∨ (8 : Nat) = P_CF_BL) ∧ NibbleProtocolSpec 0x41 8 :=
  ⟨by decide, Or.inr rfl, c1_nibble_protocol 0x41 8 (by decide) (Or.inr rfl)⟩

/-! ### C7 / C8: wrapped writing -/

/-- With no embedded NUL in the string content, the copy loop returns
exactly the next `fuel` bytes of the string from `offset`. -/
lemma lcd_copy_chunk_eq (s : List Nat) (hnz : ∀ c ∈ s, c ≠ 0) :
    ∀ fuel offset, lcd_copy_chunk s offset fuel = (s.drop offset).take fuel := by
  intro fuel
  induction fuel with
  | zero => intro offset; simp [lcd_copy_chunk]
  | succ f ih =>
    intro offset
    rcases Nat.lt_or_ge offset s.length with h | h
    · have hb : s.getD offset 0 = s[offset] := List.getD_eq_getElem s 0 h
      have hz : s[offset] ≠ 0 := hnz _ (List.getElem_mem h)
      rw [lcd_copy_chunk, hb, if_neg hz, ih, List.drop_eq_getElem_cons h, List.take_succ_cons]
    · have hb : s.getD offset 0 = 0 := List.getD_eq_default s 0 h
      rw [lcd_copy_chunk, hb, if_pos rfl, List.drop_eq_nil_of_le h, List.take_nil]

/-- C7: a string of length exactly `LCD_ROWS * LCD_COLS` (with no embedded
NUL) is written with one positioning-and-write per row for all rows: row 0
receives the first `LCD_COLS` characters and row 1 the remaining `LCD_COLS`;
no row is left unwritten and nothing is truncated. -/
theorem c7_wrapped_full (s : List Nat) (hlen : s.length = LCD_ROWS * LCD_COLS)
    (hnz : ∀ c ∈ s, c ≠ 0) :
    lcd_show_wrapped_rows s = [(0, s.take LCD_COLS), (1, s.drop LCD_COLS)] := by
  have h32 : s.length = 32 := hlen
  have hchunk := lcd_copy_chunk_eq s hnz
  have c0 : lcd_copy_chunk s 0 16 = s.take 16 := by rw [hchunk]; simp
  have c1 : lcd_copy_chunk s 16 16 = s.drop 16 := by
    rw [hchunk]
    exact List.take_of_length_le (by simp [h32])
  have l0 : (s.take 16).length = 16 := by simp [h32]
  have l1 : (s.drop 16).length = 16 := by simp [h32]
  have t0 : s.getD 16 0 ≠ 0 := by
    rw [List.getD_eq_getElem s 0 (by omega)]
    exact hnz _ (List.getElem_mem (by omega))
  have t1 : s.getD 32 0 = 0 := List.getD_eq_default s 0 (by omega)
  show lcd_show_wrapped_go s 0 2 = _
  rw [show (2 : Nat) = 1 + 1 from rfl, lcd_show_wrapped_go]
  simp only [LCD_COLS, Nat.zero_mul, Nat.zero_add, c0, l0, t0, if_neg, Nat.zero_add]
  rw [lcd_show_wrapped_go]
  simp only [LCD_COLS, Nat.one_mul, c1, l1, t1, if_pos]
  simp [c0, c1, t0]

/-- Witness for C7 on a concrete 32-character string. -/
theorem c7_wrapped_full_witness :
    (List.replicate 32 65).length = LCD_ROWS * LCD_COLS ∧
    (∀ c ∈ List.replicate 32 65, c ≠ 0) ∧
    lcd_show_wrapped_rows (List.replicate 32 65) =
      [(0, (List.replicate 32 65).take LCD_COLS), (1, (List.replicate 32 65).drop LCD_COLS)] :=
  ⟨by decide, by decide, c7_wrapped_full (List.replicate 32 65) (by decide) (by decide)⟩

/-- C8: a string shorter than one row (no embedded NUL) is written to row 0
only; no positioning or write happens for any further row. -/
theorem c8_wrapped_short (s : List Nat) (hlen : s.length < LCD_COLS)
    (hnz : ∀ c ∈ s, c ≠ 0) :
    lcd_show_wrapped_rows s = [(0, s)] := by
  have hchunk := lcd_copy_chunk_eq s hnz
  have c0 : lcd_copy_chunk s 0 16 = s := by
    rw [hchunk]
    simpa using List.take_of_length_le (le_of_lt hlen)
  have t0 : s.getD s.length 0 = 0 := List.getD_eq_default s 0 le_rfl
  show lcd_show_wrapped_go s 0 2 = _
  rw [show (2 : Nat) = 1 + 1 from rfl, lcd_show_wrapped_go]
  simp only [LCD_COLS, Nat.zero_mul, Nat.zero_add, c0, t0, if_pos]

/-- Witness for C8 on the concrete two-character string "Hi". -/
theorem c8_wrapped_short_witness :
    ([72, 105] : List Nat).length < LCD_COLS ∧
    (∀ c ∈ ([72, 105] : List Nat), c ≠ 0) ∧
    lcd_show_wrapped_rows [72, 105] = [(0, [72, 105])] :=
  ⟨by decide, by decide, c8_wrapped_short [72, 105] (by decide) (by decide)⟩

/-! ### C10: backlight flag invariant -/
/-- Every byte emitted by `lcd_put_cur` has backlight bit equal to the flag. -/
lemma mem_lcd_put_cur_bl (bl row col : Nat) (hbl : bl = 0 ∨ bl = P_CF_BL) :
    ∀ b ∈ lcd_put_cur bl row col, b &&& P_CF_BL = bl :=
  mem_lcd_put_cur_geom_bl LCD_ROWS LCD_COLS bl row col hbl

/-- Every byte emitted by `lcd_ascii_test` has backlight bit equal to the flag. -/
lemma mem_lcd_ascii_test_bl (bl : Nat) (hfl : bl = 0 ∨ bl = P_CF_BL) :
    ∀ b ∈ lcd_ascii_test bl, b &&& P_CF_BL = bl := by
  intro b hb
  simp only [lcd_ascii_test] at hb
  rcases List.mem_flatten.1 hb with ⟨l, hl, hmem⟩
  rcases List.mem_map.1 hl with ⟨r, _, rfl⟩
  rcases List.mem_append.1 (by simpa [lcd_ascii_test_row] using hmem) with h | h
  · exact mem_lcd_put_cur_bl bl r 0 hfl b h
  · exact mem_lcd_send_string_bl bl hfl _ b h

/-- Every byte emitted by `lcd_show_wrapped` has backlight bit equal to the flag. -/
lemma mem_lcd_show_wrapped_bytes_bl (bl : Nat) (s : List Nat) (hfl : bl = 0 ∨ bl = P_CF_BL) :
    ∀ b ∈ lcd_show_wrapped_bytes bl s, b &&& P_CF_BL = bl := by
  intro b hb
  simp only [lcd_show_wrapped_bytes] at hb
  rcases List.mem_flatten.1 hb with ⟨l, hl, hmem⟩
  rcases List.mem_map.1 hl with ⟨rc, _, rfl⟩
  rcases List.mem_append.1 hmem with h | h
  · exact mem_lcd_put_cur_bl bl rc.1 0 hfl b h
  · exact mem_lcd_send_string_bl bl hfl rc.2 b h

/-- Every byte emitted by `lcd_scroll_line` has backlight bit equal to the flag. -/
lemma mem_lcd_scroll_line_bl (bl row : Nat) (text : List Nat) (hfl : bl = 0 ∨ bl = P_CF_BL) :
    ∀ b ∈ lcd_scroll_line bl row text, b &&& P_CF_BL = bl := by
  intro b hb
  rw [lcd_scroll_line] at hb
  split at hb
  · rcases List.mem_append.1 hb with h | h
    · exact mem_lcd_put_cur_bl bl row 0 hfl b h
    · exact mem_lcd_send_string_bl bl hfl text b h
  · rcases List.mem_flatten.1 hb with ⟨l, hl, hmem⟩
    rcases List.mem_map.1 hl with ⟨st, _, rfl⟩
    rcases List.mem_append.1 hmem with h | h
    · exact mem_lcd_put_cur_bl bl row 0 hfl b h
    · exact mem_lcd_send_string_bl bl hfl _ b h

/-- C10: starting from a well-formed backlight flag (`0` or `P_CF_BL`), every
public LCD operation leaves the flag well-formed, every expander byte it
emits has its backlight bit equal to the module's stored flag during the
operation, and only `lcd_init`, `lcd_backlight_on` and `lcd_backlight_off`
ever change the flag. -/
theorem c10_backlight_invariant (op : LcdOp) (bl : Nat) (hbl : bl = 0 ∨ bl = P_CF_BL) :
    ((lcdStep op bl).1 = 0 ∨ (lcdStep op bl).1 = P_CF_BL) ∧
    (∀ b ∈ (lcdStep op bl).2, b &&& P_CF_BL = (lcdStep op bl).1) ∧
    (op ≠ LcdOp.opInit → op ≠ LcdOp.opBacklightOn → op ≠ LcdOp.opBacklightOff →
      (lcdStep op bl).1 = bl) := by
  cases op with
  | opInit =>
      refine ⟨Or.inr rfl, ?_, fun h _ _ => absurd rfl h⟩
      show ∀ b ∈ lcd_init.2, b &&& P_CF_BL = lcd_init.1
      decide
  | opClear =>
      exact ⟨hbl, mem_lcd_send_cmd_bl bl 0x01 hbl, fun _ _ _ => rfl⟩
  | opPutCur row col =>
      exact ⟨hbl, mem_lcd_put_cur_bl bl row col hbl, fun _ _ _ => rfl⟩
  | opSendString s =>
      exact ⟨hbl, mem_lcd_send_string_bl bl hbl s, fun _ _ _ => rfl⟩
  | opBacklightOn =>
      refine ⟨Or.inr rfl, ?_, fun _ h _ => absurd rfl h⟩
      intro b hb
      simp only [lcdStep, lcd_backlight_on, List.mem_singleton] at hb
      subst hb
      rfl
  | opBacklightOff =>
      refine ⟨Or.inl rfl, ?_, fun _ _ h => absurd rfl h⟩
      intro b hb
      simp only [lcdStep, lcd_backlight_off, List.mem_singleton] at hb
      subst hb
      rfl
  | opAsciiTest =>
      exact ⟨hbl, mem_lcd_ascii_test_bl bl hbl, fun _ _ _ => rfl⟩
  | opShowWrapped s =>
      exact ⟨hbl, mem_lcd_show_wrapped_bytes_bl bl s hbl, fun _ _ _ => rfl⟩
  | opScrollLine row text =>
      exact ⟨hbl, mem_lcd_scroll_line_bl bl row text hbl, fun _ _ _ => rfl⟩

/-- Witness for C10 at a concrete operation and flag value. -/
theorem c10_backlight_invariant_witness :
    ((8 : Nat) = 0 ∨ (8 : Nat) = P_CF_BL) ∧
    (((lcdStep (LcdOp.opPutCur 1 3) 8).1 = 0 ∨ (lcdStep (LcdOp.opPutCur 1 3) 8).1 = P_CF_BL) ∧
     (∀ b ∈ (lcdStep (LcdOp.opPutCur 1 3) 8).2, b &&& P_CF_BL = (lcdStep (LcdOp.opPutCur 1 3) 8).1) ∧
     (LcdOp.opPutCur 1 3 ≠ LcdOp.opInit → LcdOp.opPutCur 1 3 ≠ LcdOp.opBacklightOn →
      LcdOp.opPutCur 1 3 ≠ LcdOp.opBacklightOff → (lcdStep (LcdOp.opPutCur 1 3) 8).1 = 8)) :=
  ⟨Or.inr rfl, c10_backlight_invariant (LcdOp.opPutCur 1 3) 8 (Or.inr rfl)⟩

/-! ### C3 / C9 / C4: WS2812B transmission -/
/-- The inner bit loop always emits one pulse per remaining bit. -/
lemma wsBitLoop_length (b : Nat) : ∀ k, (wsBitLoop b k).length = k := by
  intro k
  induction k with
  | zero => rfl
  | succ j ih => simp [wsBitLoop, ih]

set_option maxRecDepth 4000 in
/-- For a byte value, the inner loop sends the eight bits most-significant
first, each pulse's durations selected by the bit value. -/
lemma wsBitLoop_eq_bits :
    ∀ b < 256, wsBitLoop b 8 =
      (List.range 8).map (fun j =>
        if b.testBit (7 - j) then WSEvent.bitPulse T1H T1L
        else WSEvent.bitPulse T0H T0L) := by decide

/-- Total pulse count over a byte buffer. -/
lemma ws_pulses_length (buf : List Nat) :
    ((buf.map (fun b => wsBitLoop b 8)).flatten).length = 8 * buf.length := by
  induction buf with
  | nil => rfl
  | cons b rest ih => simp [wsBitLoop_length, ih]; ring

/-- When `led_count * 3` fits in the 16-bit counter, the transmission loop
terminates and emits exactly the pulses of the buffer bytes in order. -/
lemma wsSendLoop_eq (buf : List Nat) (n : Nat) (hn : n * 3 ≤ 65535)
    (hlen : buf.length = n * 3) :
    ∀ fuel i, i ≤ n * 3 → n * 3 - i < fuel →
      wsSendLoop buf n fuel i =
        some (((buf.drop i).map (fun b => wsBitLoop b 8)).flatten) := by
  intro fuel
  induction fuel with
  | zero => intro i h1 h2; omega
  | succ f ih =>
    intro i h1 h2
    rcases Nat.lt_or_ge i (n * 3) with h | h
    · have hi1 : (i + 1) % 65536 = i + 1 := Nat.mod_eq_of_lt (by omega)
      have hlt : i < buf.length := by omega
      rw [wsSendLoop, if_pos h, hi1, ih (i + 1) (by omega) (by omega)]
      rw [List.getD_eq_getElem buf 0 hlt]
      conv_rhs => rw [List.drop_eq_getElem_cons hlt, List.map_cons, List.flatten_cons]
      rfl
    · have hi : i = n * 3 := by omega
      rw [wsSendLoop, if_neg (by omega)]
      rw [List.drop_eq_nil_of_le (by omega), List.map_nil, List.flatten_nil]

/-- C3 (amended): for every `led_count` up to 21845 and every byte buffer of
length `3 x N`, the transmission terminates, emitting exactly the `24 x N`
bit pulses of the buffer bytes — each byte most-significant bit first, each
pulse's high duration `T1H` or `T0H` according to the bit — followed by
exactly one trailing reset hold; in particular `N = 0` emits zero pulses and
still performs the reset hold.  (For `N ≥ 21846` the 16-bit loop counter
wraps below the `int`-valued bound `led_count * 3` and the loop never
terminates, so the claim as stated fails there.) -/
theorem c3_send_pulses (n : Nat) (buf : List Nat) (e : Bool)
    (hn : n ≤ 21845) (hlen : buf.length = n * 3) (hbytes : ∀ c ∈ buf, c < 256) :
    ws2812b_send e buf n (n * 3 + 1) =
      some (((buf.map (fun b => wsBitLoop b 8)).flatten) ++ [WSEvent.resetHold],
            if e = false then false else true) ∧
    ((buf.map (fun b => wsBitLoop b 8)).flatten).length = 24 * n ∧
    (∀ b ∈ buf, wsBitLoop b 8 =
      (List.range 8).map (fun j =>
        if b.testBit (7 - j) then WSEvent.bitPulse T1H T1L
        else WSEvent.bitPulse T0H T0L)) := by
  refine ⟨?_, ?_, fun b hb => wsBitLoop_eq_bits b (hbytes b hb)⟩
  · rw [ws2812b_send,
      wsSendLoop_eq buf n (by omega) hlen (n * 3 + 1) 0 (by omega) (by omega)]
    simp [Option.map_some]
  · rw [ws_pulses_length, hlen]; ring

/-- Witness for C3 (amended) at `led_count = 0`: zero pulses, one reset hold. -/
theorem c3_send_pulses_witness :
    0 ≤ 21845 ∧ ([] : List Nat).length = 0 * 3 ∧ (∀ c ∈ ([] : List Nat), c < 256) ∧
    (ws2812b_send true [] 0 (0 * 3 + 1) =
      some (((([] : List Nat).map (fun b => wsBitLoop b 8)).flatten) ++ [WSEvent.resetHold],
            if true = false then false else true) ∧
     ((([] : List Nat).map (fun b => wsBitLoop b 8)).flatten).length = 24 * 0 ∧
     (∀ b ∈ ([] : List Nat), wsBitLoop b 8 =
       (List.range 8).map (fun j =>
         if b.testBit (7 - j) then WSEvent.bitPulse T1H T1L
         else WSEvent.bitPulse T0H T0L))) :=
  ⟨by omega, rfl, by simp, c3_send_pulses 0 [] true (by omega) rfl (by simp)⟩

/-- For `led_count = 21846` the loop condition `i < led_count * 3` is true for
every value the 16-bit counter can store, so no amount of fuel exits the loop. -/
lemma wsSendLoop_diverges (buf : List Nat) :
    ∀ fuel i, i < 65536 → wsSendLoop buf 21846 fuel i = none := by
  intro fuel
  induction fuel with
  | zero => intro i _; rfl
  | succ f ih =>
    intro i h
    rw [wsSendLoop, if_pos (by omega), ih ((i + 1) % 65536) (Nat.mod_lt _ (by omega))]
    rfl

/-- C3 counterexample: with `led_count = 21846` and a well-sized buffer of
`3 x 21846 = 65538` bytes, the transmission loop never terminates (the
`uint16_t` counter wraps at 65536, below the bound 65538 computed in `int`),
so `ws2812b_send` never emits its trailing reset hold, contradicting the
claim for every `led_count N`. -/
theorem c3_counterexample :
    ¬ wsSendTerminates (List.replicate 65538 0) 21846 := by
  rintro ⟨fuel, evs, h⟩
  rw [wsSendLoop_diverges (List.replicate 65538 0) fuel 0 (by omega)] at h
  exact Option.noConfusion h

/-- C9: `ws2812b_send` returns with the PRIMASK state it was entered with:
it re-enables interrupts on exit exactly when they were enabled at entry
(whenever the transmission loop terminates at all). -/
theorem c9_irq_restored (e : Bool) (buf : List Nat) (n fuel : Nat) :
    Option.map Prod.snd (ws2812b_send e buf n fuel) =
      Option.map (fun _ => e) (ws2812b_send e buf n fuel) := by
  unfold ws2812b_send
  cases wsSendLoop buf n fuel 0 <;> cases e <;> rfl
